import Mathlib

/-!
Verification of the repochat ingestion/retrieval pipeline.

Python strings are modelled as lists of characters (`PyStr`); every string
operation used by the source (split, join, strip, lower, regular-expression
matching) is defined here by structural recursion so that all definitions are
executable and kernel-reducible.  Each backend variant of the source lives in
its own namespace (`BoltApp` for bolt_app.py, `AppEnhaRag` for app_enha_rag.py,
`EnhRag2` for 2app_enh_rag.py, `App` for app.py, `Bolt2` for 2boltapp.py).
External collaborators (the embedding model, the vector distance of a query,
the chat model) are abstracted as function parameters, following the interface
boundary of the specification.
-/

abbrev PyStr := List Char

/-- Python `\s` character class (whitespace used by `str.strip` and regexes). -/
def pyIsSpace (c : Char) : Bool :=
  c == ' ' || c == '\t' || c == '\n' || c == '\r' || c == '\x0b' || c == '\x0c'

/-- Python `\w` character class restricted to ASCII. -/
def isWordChar (c : Char) : Bool :=
  c.isAlphanum || c == '_'

/-- Maximal munch of `\s*`. -/
def dropSp (cs : PyStr) : PyStr := cs.dropWhile pyIsSpace

/-- `\s+` followed by maximal munch: at least one whitespace character. -/
def sp1 : PyStr → Option PyStr
  | [] => none
  | c :: cs => if pyIsSpace c then some (dropSp cs) else none

/-- Match a literal character sequence, returning the remainder. -/
def lit : List Char → PyStr → Option PyStr
  | [], cs => some cs
  | _ :: _, [] => none
  | k :: ks, c :: cs => if c == k then lit ks cs else none

/-- Case-insensitive literal match (models `re.IGNORECASE`). -/
def litCI : List Char → PyStr → Option PyStr
  | [], cs => some cs
  | _ :: _, [] => none
  | k :: ks, c :: cs => if c.toLower == k.toLower then litCI ks cs else none

/-- `\w+` with maximal munch; fails when no word character is present. -/
def word1 (cs : PyStr) : Option (PyStr × PyStr) :=
  let w := cs.takeWhile isWordChar
  if w.isEmpty then none else some (w, cs.dropWhile isWordChar)

/-- `[a-zA-Z_]\w*` with maximal munch (the identifier capture group). -/
def ident1 : PyStr → Option (PyStr × PyStr)
  | [] => none
  | c :: cs =>
    if c.isAlpha || c == '_' then
      some (c :: cs.takeWhile isWordChar, cs.dropWhile isWordChar)
    else none

/-- Python `text.split(sep)` for a one-character separator. -/
def splitOnCh (sep : Char) : List Char → List PyStr
  | [] => [[]]
  | c :: cs =>
    match splitOnCh sep cs with
    | [] => [[]]
    | a :: as => if c == sep then [] :: a :: as else (c :: a) :: as

/-- Python `content.split('\n')`. -/
def splitLines (cs : List Char) : List PyStr := splitOnCh '\n' cs

/-- Python `sep.join(parts)` for a one-character separator. -/
def joinWith (sep : Char) : List PyStr → List Char
  | [] => []
  | [a] => a
  | a :: b :: rest => a ++ sep :: joinWith sep (b :: rest)

/-- Python `'\n'.join(parts)`. -/
def joinWithNl (parts : List PyStr) : List Char := joinWith '\n' parts

/-- Python `sep.join(parts)` on the string wrappers. -/
def pyJoin (sep : String) (parts : List String) : String :=
  String.mk (List.intercalate sep.data (parts.map String.data))

/-- `True` iff Python `not text.strip()`: the text is empty or whitespace-only. -/
def isBlankL (cs : PyStr) : Bool := cs.all pyIsSpace

/-- Python `text.strip()`. -/
def pyStrip (cs : PyStr) : PyStr :=
  ((cs.dropWhile pyIsSpace).reverse.dropWhile pyIsSpace).reverse

/-- Python `str.lower()` (ASCII). -/
def pyLower (s : String) : String := String.mk (s.data.map Char.toLower)

/-- Boolean list-prefix test. -/
def isPrefB : PyStr → PyStr → Bool
  | [], _ => true
  | _ :: _, [] => false
  | p :: ps, c :: cs => p == c && isPrefB ps cs

/-- Boolean substring test: models Python `pat in text`. -/
def isInfixB (pat : PyStr) : PyStr → Bool
  | [] => isPrefB pat []
  | c :: cs => isPrefB pat (c :: cs) || isInfixB pat cs

/-- Python `os.path.basename` (POSIX). -/
def basename (p : String) : String :=
  String.mk ((splitOnCh '/' p.data).getLastD [])

theorem splitOnCh_ne_nil (sep : Char) (cs : List Char) : splitOnCh sep cs ≠ [] := by
  cases cs with
  | nil => simp [splitOnCh]
  | cons c cs =>
    simp only [splitOnCh]
    cases h : splitOnCh sep cs with
    | nil => simp
    | cons a as =>
      by_cases hc : c == sep <;> simp [hc]

theorem joinWith_split (sep : Char) (cs : List Char) :
    joinWith sep (splitOnCh sep cs) = cs := by
  induction cs with
  | nil => rfl
  | cons c cs ih =>
    simp only [splitOnCh]
    cases h : splitOnCh sep cs with
    | nil => exact absurd h (splitOnCh_ne_nil sep cs)
    | cons a as =>
      rw [h] at ih
      by_cases hc : c == sep
      · simp only [hc, if_true]
        have : sep = c := (beq_iff_eq.mp hc).symm
        cases as with
        | nil => simpa [joinWith, this] using ih
        | cons b bs => simpa [joinWith, this] using ih
      · simp only [hc, if_false]
        cases as with
        | nil => simpa [joinWith] using congrArg (c :: ·) ih
        | cons b bs => simpa [joinWith] using congrArg (c :: ·) ih

theorem joinWith_append (sep : Char) (A B : List PyStr) (hA : A ≠ []) (hB : B ≠ []) :
    joinWith sep (A ++ B) = joinWith sep A ++ sep :: joinWith sep B := by
  induction A with
  | nil => exact absurd rfl hA
  | cons a as ih =>
    cases as with
    | nil =>
      cases B with
      | nil => exact absurd rfl hB
      | cons b bs => simp [joinWith]
    | cons a' as' =>
      have := ih (by simp)
      simp only [List.cons_append, joinWith] at this ⊢
      rw [List.append_assoc]
      congr 1
      simpa using this

theorem joinWithNl_split (cs : List Char) : joinWithNl (splitLines cs) = cs :=
  joinWith_split '\n' cs

theorem joinWithNl_append (A B : List PyStr) (hA : A ≠ []) (hB : B ≠ []) :
    joinWithNl (A ++ B) = joinWithNl A ++ '\n' :: joinWithNl B :=
  joinWith_append '\n' A B hA hB

theorem splitLines_ne_nil (cs : List Char) : splitLines cs ≠ [] :=
  splitOnCh_ne_nil '\n' cs

/-! ## Shared data model: indexed records and the vector store interface -/

/-- An indexed record of the vector store: a fragment plus its metadata.
Fields that a given indexer variant does not write are `none`, modelling a
missing metadata key in the stored dictionary. -/
structure Record where
  id : String
  chat_id : String
  file_path : String
  file_name : Option String := none
  document : String
  start_line : Nat := 0
  end_line : Nat := 0
  chunk_index : Nat := 0
  typ : Option String := none
  name : Option String := none
deriving DecidableEq, Repr

/-- Ordering used by the vector store: ascending query distance. -/
def distLe (a b : Record × ℚ) : Prop := a.2 ≤ b.2

instance : DecidableRel distLe := fun a b => inferInstanceAs (Decidable (a.2 ≤ b.2))

/-- `collection.query(query_embeddings, where, n_results)`: keep the records
satisfying the metadata filter, rank them by ascending distance to the query
embedding, and return the first `n` together with their distances. -/
def queryCollection (store : List Record) (pred : Record → Bool)
    (dist : Record → ℚ) (n : Nat) : List (Record × ℚ) :=
  (List.insertionSort distLe ((store.filter pred).map (fun r => (r, dist r)))).take n

/-- A chat message handed to the language model. -/
structure Message where
  role : String
  content : String
deriving DecidableEq, Repr

theorem mem_queryCollection {store : List Record} {pred : Record → Bool}
    {dist : Record → ℚ} {n : Nat} {p : Record × ℚ}
    (h : p ∈ queryCollection store pred dist n) : pred p.1 = true := by
  have h₁ : p ∈ List.insertionSort distLe ((store.filter pred).map (fun r => (r, dist r))) :=
    List.mem_of_mem_take h
  have h₂ : p ∈ (store.filter pred).map (fun r => (r, dist r)) :=
    (List.perm_insertionSort distLe _).subset h₁
  obtain ⟨r, hr, hp⟩ := List.mem_map.mp h₂
  have := List.of_mem_filter hr
  rw [← hp]
  exact this

/-! ## bolt_app.py -/

namespace BoltApp

/-- Result of matching one declaration pattern against a line:
the `type`, `name` and language recorded by `extract_functions_and_classes`. -/
structure LineMatch where
  typ : String
  name : String
  lang : String
deriving DecidableEq, Repr

/-- One keyword alternative of the Python pattern `^\s*(def|class)\s+(\w+)`,
tried at the position after the leading whitespace. -/
def pyKw (kw : String) (r : PyStr) : Option (String × String) := do
  let r₁ ← lit kw.data r
  let r₂ ← sp1 r₁
  let (w, _) ← word1 r₂
  pure (kw, String.mk w)

/-- Python pattern `^\s*(def|class)\s+(\w+)`; returns `(group 1, group 2)`. -/
def matchPython (l : PyStr) : Option (String × String) :=
  let r := dropSp l
  pyKw "def" r <|> pyKw "class" r

/-- First alternative of the javascript pattern:
`^\s*(function|class)\s+(\w+)`; returns `(group 1, group 2)`. -/
def jsAlt1 (l : PyStr) : Option (String × String) :=
  let r := dropSp l
  pyKw "function" r <|> pyKw "class" r

/-- Second alternative of the javascript pattern:
`^\s*(\w+)\s*=\s*(async\s*)?function`; returns the remainder after the match,
from which the whole matched text (`group 0`) is recovered. -/
def jsAlt2 (l : PyStr) : Option PyStr := do
  let r := dropSp l
  let (_, r₁) ← word1 r
  let r₂ := dropSp r₁
  let r₃ ← lit "=".data r₂
  let r₄ := dropSp r₃
  match lit "async".data r₄ with
  | some r₅ =>
    match lit "function".data (dropSp r₅) with
    | some r₆ => some r₆
    | none => lit "function".data r₄
  | none => lit "function".data r₄

/-- Javascript pattern of `extract_functions_and_classes`, already combined
with the group logic of the caller: for the second alternative groups 1 and 2
are absent, so the type falls back to `function` and the name to `group 0`. -/
def matchJs (l : PyStr) : Option (String × String) :=
  match jsAlt1 l with
  | some (t, n) => some (t, n)
  | none =>
    match jsAlt2 l with
    | some rest => some ("function", String.mk (l.take (l.length - rest.length)))
    | none => none

/-- `(public|private|protected)` with its captured text. -/
def javaMod (r : PyStr) : Option (String × PyStr) :=
  match lit "public".data r with
  | some r' => some ("public", r')
  | none =>
    match lit "private".data r with
    | some r' => some ("private", r')
    | none =>
      match lit "protected".data r with
      | some r' => some ("protected", r')
      | none => none

/-- `(static\s+)` with its captured text (keyword plus the matched spaces). -/
def javaStatic (r : PyStr) : Option (String × PyStr) :=
  match lit "static".data r with
  | some r₁ =>
    match r₁ with
    | [] => none
    | c :: _ =>
      if pyIsSpace c then
        some (String.mk ("static".data ++ r₁.takeWhile pyIsSpace), r₁.dropWhile pyIsSpace)
      else none
  | none => none

/-- `(class|interface|enum)\s+(\w+)`: returns the remainder after the name. -/
def javaKwRest (r : PyStr) : Option PyStr := do
  let r₁ ← (lit "class".data r <|> lit "interface".data r <|> lit "enum".data r)
  let r₂ ← sp1 r₁
  let (_, r₃) ← word1 r₂
  pure r₃

/-- One modifier assignment of the first java alternative: `g1` is the matched
access modifier (if chosen), `r` the position after it and its `\s*`. -/
def javaAlt1At (g1 : Option String) (r : PyStr) : Option (Option String × Option String × PyStr) :=
  match javaStatic r with
  | some (g2, r₂) =>
    match javaKwRest r₂ with
    | some r₃ => some (g1, some g2, r₃)
    | none =>
      match javaKwRest r with
      | some r₃ => some (g1, none, r₃)
      | none => none
  | none =>
    match javaKwRest r with
    | some r₃ => some (g1, none, r₃)
    | none => none

/-- First java alternative
`^\s*(public|private|protected)?\s*(static\s+)?(class|interface|enum)\s+(\w+)`
with the backtracking order of the optional groups. -/
def javaAlt1 (l : PyStr) : Option (Option String × Option String × PyStr) :=
  let r0 := dropSp l
  match javaMod r0 with
  | some (m, rm) =>
    match javaAlt1At (some m) (dropSp rm) with
    | some res => some res
    | none => javaAlt1At none r0
  | none => javaAlt1At none r0

/-- Tail of the second java alternative: `\w+\s+(\w+)\s*\(`. -/
def javaAlt2Core (r : PyStr) : Option PyStr := do
  let (_, r₁) ← word1 r
  let r₂ ← sp1 r₁
  let (_, r₃) ← word1 r₂
  lit "(".data (dropSp r₃)

/-- One modifier assignment of the second java alternative. -/
def javaAlt2At (r : PyStr) : Option PyStr :=
  match javaStatic r with
  | some (_, r₂) =>
    match javaAlt2Core r₂ with
    | some r₃ => some r₃
    | none => javaAlt2Core r
  | none => javaAlt2Core r

/-- Second java alternative
`^\s*(public|private|protected)?\s*(static\s+)?\w+\s+(\w+)\s*\(`. -/
def javaAlt2 (l : PyStr) : Option PyStr :=
  let r0 := dropSp l
  match javaMod r0 with
  | some (_, rm) =>
    match javaAlt2At (dropSp rm) with
    | some res => some res
    | none => javaAlt2At r0
  | none => javaAlt2At r0

/-- Java pattern combined with the group logic of the caller: `type` is
`group 1` (the access modifier) or `function`, `name` is `group 2` (the
static capture) or `group 0`. -/
def matchJava (l : PyStr) : Option (String × String) :=
  match javaAlt1 l with
  | some (g1, g2, rest) =>
    let g0 := String.mk (l.take (l.length - rest.length))
    some (g1.getD "function", g2.getD g0)
  | none =>
    match javaAlt2 l with
    | some rest => some ("function", String.mk (l.take (l.length - rest.length)))
    | none => none

/-- Try the declaration patterns of `extract_functions_and_classes` in the
dictionary order of the source: python, javascript, java. -/
def matchLine (l : PyStr) : Option LineMatch :=
  match matchPython l with
  | some (t, n) => some ⟨t, n, "python"⟩
  | none =>
    match matchJs l with
    | some (t, n) => some ⟨t, n, "javascript"⟩
    | none =>
      match matchJava l with
      | some (t, n) => some ⟨t, n, "java"⟩
      | none => none

/-- A structure found by `extract_functions_and_classes`. -/
structure StructInfo where
  typ : String
  name : String
  start_line : Nat
  end_line : Nat
  content : PyStr
  language : String
deriving DecidableEq, Repr

/-- The structure currently open during the scan (its end line is unknown). -/
structure OpenS where
  typ : String
  name : String
  start_line : Nat
  content : PyStr
  language : String
deriving DecidableEq, Repr

/-- Close the open structure at 1-based line `e`. -/
def closeS (o : OpenS) (e : Nat) : StructInfo :=
  ⟨o.typ, o.name, o.start_line, e, o.content, o.language⟩

/-- The scan loop of `extract_functions_and_classes`: `i` is the 0-based index
of the next line, `cur` the currently open structure, `total` the number of
lines of the file. -/
def extractGo (total : Nat) : List PyStr → Nat → Option OpenS → List StructInfo
  | [], _, none => []
  | [], _, some o => [closeS o total]
  | l :: rest, i, cur =>
    match matchLine l with
    | none => extractGo total rest (i + 1) cur
    | some m =>
      let o : OpenS := ⟨m.typ, m.name, i + 1, l, m.lang⟩
      match cur with
      | none => extractGo total rest (i + 1) (some o)
      | some p => closeS p i :: extractGo total rest (i + 1) (some o)

/-- `extract_functions_and_classes` of bolt_app.py. -/
def extract_functions_and_classes (content : String) : List StructInfo :=
  let lines := splitLines content.data
  extractGo lines.length lines 0 none

end BoltApp

namespace BoltApp

/-- A fragment produced by `create_chunks` of bolt_app.py.  Fragments of type
`code_block` carry no name. -/
structure Chunk where
  content : PyStr
  file_path : String
  start_line : Nat
  end_line : Nat
  typ : String
  name : Option String := none
deriving DecidableEq, Repr

/-- Python slice `lines[a:b]`. -/
def sliceLines (lines : List PyStr) (a b : Nat) : List PyStr :=
  (lines.drop a).take (b - a)

/-- The structure-driven loop of `create_chunks`: emit the unassigned code
before each structure (when it is not whitespace-only), then the structure
itself, and finally any non-blank trailing code. -/
def chunksFromStructs (lines : List PyStr) (fp : String) :
    List StructInfo → Nat → List Chunk
  | [], pos =>
    if pos < lines.length then
      let c := joinWithNl (lines.drop pos)
      if isBlankL c then []
      else [⟨c, fp, pos + 1, lines.length, "code_block", none⟩]
    else []
  | s :: rest, pos =>
    let gap : List Chunk :=
      if s.start_line - 1 > pos then
        let c := joinWithNl (sliceLines lines pos (s.start_line - 1))
        if isBlankL c then []
        else [⟨c, fp, pos + 1, s.start_line - 1, "code_block", none⟩]
      else []
    gap ++ ⟨joinWithNl (sliceLines lines (s.start_line - 1) s.end_line), fp,
            s.start_line, s.end_line, s.typ, some s.name⟩
      :: chunksFromStructs lines fp rest s.end_line

/-- The size-based fallback loop of `create_chunks`: `i` is the 0-based index
of the next line, `cur` the running fragment, `clen` its running character
count. -/
def fallbackGo (fp : String) (csize : Nat) :
    List PyStr → Nat → List PyStr → Nat → List Chunk
  | [], i, cur, _ =>
    if cur.isEmpty then []
    else [⟨joinWithNl cur, fp, i - cur.length + 1, i, "code_block", none⟩]
  | l :: rest, i, cur, clen =>
    if csize < clen + l.length && !cur.isEmpty then
      ⟨joinWithNl cur, fp, i - cur.length + 1, i, "code_block", none⟩
        :: fallbackGo fp csize rest (i + 1) [l] (l.length + 1)
    else
      fallbackGo fp csize rest (i + 1) (cur ++ [l]) (clen + l.length + 1)

/-- `create_chunks` of bolt_app.py (the second, structure-aware definition,
which shadows the earlier one at module level). -/
def create_chunks (content : String) (file_path : String)
    (chunk_size : Nat := 1500) : List Chunk :=
  let lines := splitLines content.data
  let structures := extract_functions_and_classes content
  if structures.isEmpty then fallbackGo file_path chunk_size lines 0 [] 0
  else chunksFromStructs lines file_path structures 0

/-- Concatenation of the produced fragments, joined by newline. -/
def joinChunks (cs : List Chunk) : PyStr := joinWithNl (cs.map Chunk.content)

/-- The fragment intervals tile the line range: the first fragment starts at
line `f`, each next fragment starts right after the previous one ends, and
the last fragment ends at line `t`. -/
def chunkChain : Nat → Nat → List Chunk → Bool
  | f, t, [] => f == t + 1
  | f, t, c :: cs => f == c.start_line && chunkChain (c.end_line + 1) t cs

/-! ### Declarative characterization of the structure extractor -/

/-- A line at which some declaration pattern matches. -/
structure Site where
  idx : Nat
  m : LineMatch
  line : PyStr
deriving DecidableEq, Repr

/-- The declaration sites of the lines, with their 0-based indices. -/
def declSites : List PyStr → Nat → List Site
  | [], _ => []
  | l :: rest, i =>
    match matchLine l with
    | some m => ⟨i, m, l⟩ :: declSites rest (i + 1)
    | none => declSites rest (i + 1)

/-- The region opened at a declaration site, closed at 1-based line `e`. -/
def siteStruct (s : Site) (e : Nat) : StructInfo :=
  ⟨s.m.typ, s.m.name, s.idx + 1, e, s.line, s.m.lang⟩

/-- Stated from the specification: each region starts at its declaration line,
ends at the line before the next declaration, and the final region ends at the
last line of the file. -/
def regionsOfSites (total : Nat) : List Site → List StructInfo
  | [] => []
  | [s] => [siteStruct s total]
  | s :: s' :: rest => siteStruct s s'.idx :: regionsOfSites total (s' :: rest)

theorem extractGo_eq_regions (total : Nat) :
    ∀ (ls : List PyStr) (i : Nat) (cur : Option OpenS),
      extractGo total ls i cur =
        match cur with
        | none => regionsOfSites total (declSites ls i)
        | some o =>
          match declSites ls i with
          | [] => [closeS o total]
          | s :: _ => closeS o s.idx :: regionsOfSites total (declSites ls i) := by
  intro ls
  induction ls with
  | nil =>
    intro i cur
    cases cur <;> simp [extractGo, declSites, regionsOfSites]
  | cons l rest ih =>
    intro i cur
    simp only [extractGo, declSites]
    cases hm : matchLine l with
    | none =>
      cases cur with
      | none => simpa using ih (i + 1) none
      | some p => simpa using ih (i + 1) (some p)
    | some m =>
      cases cur with
      | none =>
        simp only [ih]
        cases hd : declSites rest (i + 1) with
        | nil => simp [hd, regionsOfSites, siteStruct, closeS]
        | cons s ss => simp [hd, regionsOfSites, siteStruct, closeS]
      | some p =>
        simp only [ih]
        cases hd : declSites rest (i + 1) with
        | nil => simp [hd, regionsOfSites, siteStruct, closeS]
        | cons s ss => simp [hd, regionsOfSites, siteStruct, closeS]

theorem extract_eq_regions (content : String) :
    extract_functions_and_classes content =
      regionsOfSites (splitLines content.data).length
        (declSites (splitLines content.data) 0) := by
  unfold extract_functions_and_classes
  exact extractGo_eq_regions _ _ 0 none

end BoltApp

theorem joinWithNl_cons (x : PyStr) (xs : List PyStr) (h : xs ≠ []) :
    joinWithNl (x :: xs) = x ++ '\n' :: joinWithNl xs := by
  cases xs with
  | nil => exact absurd rfl h
  | cons b bs => rfl

namespace BoltApp

/-- The declaration sites have strictly increasing indices, all at least `i`. -/
def sitesInc : List Site → Nat → Prop
  | [], _ => True
  | s :: ss, i => i ≤ s.idx ∧ sitesInc ss (s.idx + 1)

theorem sitesInc_mono : ∀ (ss : List Site) (i j : Nat), i ≤ j → sitesInc ss j → sitesInc ss i := by
  intro ss i j hij h
  cases ss with
  | nil => trivial
  | cons s ss => exact ⟨le_trans hij h.1, h.2⟩

theorem declSites_inc : ∀ (ls : List PyStr) (i : Nat), sitesInc (declSites ls i) i := by
  intro ls
  induction ls with
  | nil => intro i; trivial
  | cons l rest ih =>
    intro i
    simp only [declSites]
    cases matchLine l with
    | some m => exact ⟨le_refl i, ih (i + 1)⟩
    | none => exact sitesInc_mono _ i (i + 1) (Nat.le_succ i) (ih (i + 1))

theorem declSites_lt : ∀ (ls : List PyStr) (i : Nat) (s : Site),
    s ∈ declSites ls i → s.idx < i + ls.length := by
  intro ls
  induction ls with
  | nil => intro i s h; simp [declSites] at h
  | cons l rest ih =>
    intro i s h
    simp only [declSites] at h
    cases hm : matchLine l with
    | some m =>
      rw [hm] at h
      rcases List.mem_cons.mp h with h | h
      · subst h; simp
      · have := ih (i + 1) s h
        simp only [List.length_cons]
        omega
    | none =>
      rw [hm] at h
      have := ih (i + 1) s h
      simp only [List.length_cons]
      omega

/-- Regions chain without gaps: starting right after line `pos`, each region
starts where the previous one stopped, and the last ends at line `t`. -/
def linked (t : Nat) : List StructInfo → Nat → Prop
  | [], pos => pos = t
  | s :: ss, pos =>
    s.start_line = pos + 1 ∧ pos + 1 ≤ s.end_line ∧ s.end_line ≤ t ∧ linked t ss s.end_line

theorem regions_linked : ∀ (ss : List Site) (s : Site) (t : Nat),
    sitesInc ss (s.idx + 1) → (∀ x ∈ s :: ss, x.idx < t) →
    linked t (regionsOfSites t (s :: ss)) s.idx := by
  intro ss
  induction ss with
  | nil =>
    intro s t _ hlt
    have hst : s.idx < t := hlt s (List.mem_cons_self s [])
    exact ⟨rfl, hst, le_refl t, rfl⟩
  | cons s' rest ih =>
    intro s t hinc hlt
    have h₁ : s.idx + 1 ≤ s'.idx := hinc.1
    have h₂ : s'.idx < t := hlt s' (by simp)
    refine ⟨rfl, h₁, le_of_lt h₂, ?_⟩
    exact ih s' t hinc.2 (fun x hx => hlt x (List.mem_cons_of_mem s hx))

/-- The fragment built from a closed region. -/
def structChunk (lines : List PyStr) (fp : String) (s : StructInfo) : Chunk :=
  ⟨joinWithNl (sliceLines lines (s.start_line - 1) s.end_line), fp,
   s.start_line, s.end_line, s.typ, some s.name⟩

theorem chunksFromStructs_aligned (lines : List PyStr) (fp : String) :
    ∀ (ss : List StructInfo) (pos : Nat), linked lines.length ss pos →
      chunksFromStructs lines fp ss pos = ss.map (structChunk lines fp) := by
  intro ss
  induction ss with
  | nil =>
    intro pos h
    have : pos = lines.length := h
    simp [chunksFromStructs, this]
  | cons s rest ih =>
    intro pos h
    obtain ⟨hs, _, _, hrest⟩ := h
    have hgap : ¬ (s.start_line - 1 > pos) := by omega
    simp only [chunksFromStructs, hgap, if_false, List.nil_append, List.map_cons]
    rw [ih s.end_line hrest]
    rfl

theorem mapped_join (lines : List PyStr) (fp : String) :
    ∀ (ss : List StructInfo) (pos : Nat), linked lines.length ss pos →
      joinWithNl ((ss.map (structChunk lines fp)).map Chunk.content) =
        joinWithNl (lines.drop pos) := by
  intro ss
  induction ss with
  | nil =>
    intro pos h
    have : pos = lines.length := h
    simp [this, List.drop_length, joinWithNl, joinWith]
  | cons s rest ih =>
    intro pos h
    obtain ⟨hs, hle, hlt, hrest⟩ := h
    have hslice : sliceLines lines (s.start_line - 1) s.end_line =
        (lines.drop pos).take (s.end_line - pos) := by
      rw [hs]; simp [sliceLines]
    cases rest with
    | nil =>
      have hend : s.end_line = lines.length := hrest
      simp only [List.map_cons, List.map_nil]
      show joinWithNl [(structChunk lines fp s).content] = _
      have : (structChunk lines fp s).content = joinWithNl (lines.drop pos) := by
        show joinWithNl (sliceLines lines (s.start_line - 1) s.end_line) = _
        rw [hslice, hend]
        congr 1
        apply List.take_of_length_le
        simp
      simpa [joinWithNl, joinWith] using this
    | cons r rest' =>
      have hend_lt : s.end_line < lines.length := by
        obtain ⟨hr, hrle, hrlt, _⟩ := hrest
        omega
      have ihr := ih s.end_line hrest
      simp only [List.map_cons] at ihr ⊢
      rw [joinWithNl_cons _ _ (by simp), ihr]
      show joinWithNl (sliceLines lines (s.start_line - 1) s.end_line) ++
        '\n' :: joinWithNl (lines.drop s.end_line) = _
      have hAB : (lines.drop pos).take (s.end_line - pos) ++ lines.drop s.end_line
          = lines.drop pos := by
        have hd : lines.drop s.end_line = (lines.drop pos).drop (s.end_line - pos) := by
          rw [List.drop_drop]
          congr 1
          omega
        rw [hd]
        exact List.take_append_drop _ _
      have hA : (lines.drop pos).take (s.end_line - pos) ≠ [] := by
        intro hc
        have := congrArg List.length hc
        simp at this
        omega
      have hB : lines.drop s.end_line ≠ [] := by
        intro hc
        have := congrArg List.length hc
        simp at this
        omega
      rw [hslice]
      conv_rhs => rw [← hAB]
      rw [joinWithNl_append _ _ hA hB]

theorem mapped_chain (lines : List PyStr) (fp : String) (t : Nat) :
    ∀ (ss : List StructInfo) (pos : Nat), linked t ss pos →
      chunkChain (pos + 1) t (ss.map (structChunk lines fp)) = true := by
  intro ss
  induction ss with
  | nil =>
    intro pos h
    have : pos = t := h
    simp [chunkChain, this]
  | cons s rest ih =>
    intro pos h
    obtain ⟨hs, _, _, hrest⟩ := h
    simp only [List.map_cons, chunkChain, structChunk]
    rw [hs]
    simp only [beq_self_eq_true, Bool.true_and]
    exact ih s.end_line hrest

end BoltApp

namespace BoltApp

theorem fallbackGo_ne_nil (fp : String) (csize : Nat) :
    ∀ (rest : List PyStr) (i : Nat) (cur : List PyStr) (clen : Nat),
      cur ≠ [] → fallbackGo fp csize rest i cur clen ≠ [] := by
  intro rest
  induction rest with
  | nil =>
    intro i cur clen hcur
    simp only [fallbackGo]
    rw [if_neg (by simpa using hcur)]
    simp
  | cons l rest ih =>
    intro i cur clen hcur
    simp only [fallbackGo]
    by_cases hc : (csize < clen + l.length && !cur.isEmpty) = true
    · rw [if_pos hc]; simp
    · rw [if_neg hc]
      exact ih (i + 1) (cur ++ [l]) (clen + l.length + 1) (by simp)

theorem fallbackGo_join (fp : String) (csize : Nat) :
    ∀ (rest : List PyStr) (i : Nat) (cur : List PyStr) (clen : Nat), cur ≠ [] →
      joinWithNl ((fallbackGo fp csize rest i cur clen).map Chunk.content) =
        joinWithNl (cur ++ rest) := by
  intro rest
  induction rest with
  | nil =>
    intro i cur clen hcur
    simp only [fallbackGo]
    rw [if_neg (by simpa using hcur)]
    simp [joinWithNl, joinWith]
  | cons l rest ih =>
    intro i cur clen hcur
    simp only [fallbackGo]
    by_cases hc : (csize < clen + l.length && !cur.isEmpty) = true
    · rw [if_pos hc]
      simp only [List.map_cons]
      rw [joinWithNl_cons _ _ (by
        intro hmap
        exact fallbackGo_ne_nil fp csize rest (i + 1) [l] (l.length + 1) (by simp)
          (List.map_eq_nil_iff.mp hmap))]
      rw [ih (i + 1) [l] (l.length + 1) (by simp)]
      show joinWithNl cur ++ '\n' :: joinWithNl ([l] ++ rest) = _
      rw [← joinWithNl_append cur ([l] ++ rest) hcur (by simp)]
      simp
    · rw [if_neg hc]
      rw [ih (i + 1) (cur ++ [l]) (clen + l.length + 1) (by simp)]
      simp

theorem fallbackGo_chain (fp : String) (csize : Nat) :
    ∀ (rest : List PyStr) (i : Nat) (cur : List PyStr) (clen : Nat),
      cur ≠ [] → cur.length ≤ i →
      chunkChain (i - cur.length + 1) (i + rest.length) (fallbackGo fp csize rest i cur clen) = true := by
  intro rest
  induction rest with
  | nil =>
    intro i cur clen hcur hlen
    simp only [fallbackGo]
    rw [if_neg (by simpa using hcur)]
    simp only [chunkChain, List.length_nil, Nat.add_zero]
    refine (Bool.and_eq_true _ _).mpr ⟨beq_self_eq_true _, ?_⟩
    simp [chunkChain]
  | cons l rest ih =>
    intro i cur clen hcur hlen
    simp only [fallbackGo]
    by_cases hc : (csize < clen + l.length && !cur.isEmpty) = true
    · rw [if_pos hc]
      simp only [chunkChain, List.length_cons]
      refine (Bool.and_eq_true _ _).mpr ⟨beq_self_eq_true _, ?_⟩
      have := ih (i + 1) [l] (l.length + 1) (by simp) (by simp)
      simp only [List.length_cons, List.length_nil] at this
      have harith : i + 1 - (0 + 1) + 1 = i + 1 := by omega
      rw [harith] at this
      have harith2 : i + 1 + rest.length = i + (rest.length + 1) := by omega
      rw [harith2] at this
      exact this
    · rw [if_neg hc]
      have := ih (i + 1) (cur ++ [l]) (clen + l.length + 1) (by simp) (by simp; omega)
      have harith : i + 1 - (cur ++ [l]).length + 1 = i - cur.length + 1 := by
        simp only [List.length_append, List.length_cons, List.length_nil]
        omega
      have harith2 : i + 1 + rest.length = i + (rest.length + 1) := by omega
      rw [harith, harith2] at this
      simpa using this

theorem regionsOfSites_eq_nil (t : Nat) :
    ∀ (sites : List Site), regionsOfSites t sites = [] ↔ sites = [] := by
  intro sites
  cases sites with
  | nil => simp [regionsOfSites]
  | cons s ss =>
    cases ss with
    | nil => simp [regionsOfSites]
    | cons s' rest => simp [regionsOfSites]

end BoltApp

namespace BoltApp

/-! ### Retrieval of bolt_app.py: strategy selection and filtered search -/

/-- Keywords that indicate a general question about the codebase. -/
def general_keywords : List String :=
  ["what is this code for", "what does this do", "explain this code",
   "purpose of this", "overview", "summarize", "describe the code",
   "how does this work", "what is the functionality"]

/-- `is_general_question`: some general keyword occurs in the lowered query. -/
def is_general_question (query : String) : Bool :=
  general_keywords.any (fun k => isInfixB k.data (pyLower query).data)

/-- Keywords that indicate a question about a specific function. -/
def function_keywords : List String :=
  ["function", "method", "class", "def", "how does", "what does", "explain"]

def is_function_query (query : String) : Bool :=
  function_keywords.any (fun k => isInfixB k.data (pyLower query).data)

/-- `re.match(r'^@(\S+)', query)`: the leading file marker of the query. -/
def fileMatchOf (query : String) : Option String :=
  match query.data with
  | '@' :: rest =>
    let fn := rest.takeWhile (fun c => !pyIsSpace c)
    if fn.isEmpty then none else some (String.mk fn)
  | _ => none

/-- Pattern 1 of `extract_function_name`:
`(?:function|method|class)\s+([a-zA-Z_]\w*)`, tried at one position. -/
def fnPat1At (cs : PyStr) : Option PyStr :=
  (do let r ← litCI "function".data cs; let r₂ ← sp1 r; let (w, _) ← ident1 r₂; pure w) <|>
  (do let r ← litCI "method".data cs; let r₂ ← sp1 r; let (w, _) ← ident1 r₂; pure w) <|>
  (do let r ← litCI "class".data cs; let r₂ ← sp1 r; let (w, _) ← ident1 r₂; pure w)

/-- Pattern 2: `(?:the|a)\s+([a-zA-Z_]\w*)\s+(?:function|method|class)`. -/
def fnPat2At (cs : PyStr) : Option PyStr :=
  (do let r ← litCI "the".data cs
      let r₂ ← sp1 r
      let (w, r₃) ← ident1 r₂
      let r₄ ← sp1 r₃
      let _ ← (litCI "function".data r₄ <|> litCI "method".data r₄ <|> litCI "class".data r₄)
      pure w) <|>
  (do let r ← litCI "a".data cs
      let r₂ ← sp1 r
      let (w, r₃) ← ident1 r₂
      let r₄ ← sp1 r₃
      let _ ← (litCI "function".data r₄ <|> litCI "method".data r₄ <|> litCI "class".data r₄)
      pure w)

/-- Pattern 3: `how\s+does\s+([a-zA-Z_]\w*)\s+work`. -/
def fnPat3At (cs : PyStr) : Option PyStr := do
  let r ← litCI "how".data cs
  let r₂ ← sp1 r
  let r₃ ← litCI "does".data r₂
  let r₄ ← sp1 r₃
  let (w, r₅) ← ident1 r₄
  let r₆ ← sp1 r₅
  let _ ← litCI "work".data r₆
  pure w

/-- Pattern 4: `what\s+does\s+([a-zA-Z_]\w*)\s+do`. -/
def fnPat4At (cs : PyStr) : Option PyStr := do
  let r ← litCI "what".data cs
  let r₂ ← sp1 r
  let r₃ ← litCI "does".data r₂
  let r₄ ← sp1 r₃
  let (w, r₅) ← ident1 r₄
  let r₆ ← sp1 r₅
  let _ ← litCI "do".data r₆
  pure w

/-- Pattern 5: `explain\s+(?:the\s+)?([a-zA-Z_]\w*)`. -/
def fnPat5At (cs : PyStr) : Option PyStr := do
  let r ← litCI "explain".data cs
  let r₂ ← sp1 r
  match (do let r₃ ← litCI "the".data r₂
            let r₄ ← sp1 r₃
            let (w, _) ← ident1 r₄
            pure (w : PyStr)) with
  | some w => pure w
  | none => do
    let (w, _) ← ident1 r₂
    pure w

/-- `re.search`: try the pattern at every position, leftmost match wins. -/
def searchAt (f : PyStr → Option PyStr) : PyStr → Option PyStr
  | [] => f []
  | c :: cs =>
    match f (c :: cs) with
    | some w => some w
    | none => searchAt f cs

/-- `extract_function_name` of bolt_app.py: try the five patterns in order,
everywhere in the query, case-insensitively; return the captured identifier
or the empty string. -/
def extract_function_name (query : String) : String :=
  match searchAt fnPat1At query.data with
  | some w => String.mk w
  | none =>
    match searchAt fnPat2At query.data with
    | some w => String.mk w
    | none =>
      match searchAt fnPat3At query.data with
      | some w => String.mk w
      | none =>
        match searchAt fnPat4At query.data with
        | some w => String.mk w
        | none =>
          match searchAt fnPat5At query.data with
          | some w => String.mk w
          | none => ""

/-- The retrieval strategy chosen by `generate_response` of bolt_app.py. -/
inductive Strategy where
  | overview : Strategy
  | fileScoped : String → Strategy
  | symbolNamed : String → Strategy
  | symbolAll : Strategy
  | defaultSearch : Strategy
deriving DecidableEq, Repr

/-- The branch structure of `generate_response`: general keywords are checked
first, then the leading `@file` marker, then function keywords, else the
default search. -/
def selectStrategy (query : String) : Strategy :=
  if is_general_question query then .overview
  else
    match fileMatchOf query with
    | some filename => .fileScoped filename
    | none =>
      if is_function_query query then
        let function_name := extract_function_name query
        if function_name.isEmpty then .symbolAll else .symbolNamed function_name
      else .defaultSearch

/-- The `where` filter passed to `collection.query` in each branch.  Every
branch includes the `chat_id` condition. -/
def whereFor (strat : Strategy) (chat_id : String) (r : Record) : Bool :=
  match strat with
  | .overview => r.chat_id == chat_id
  | .fileScoped filename => r.chat_id == chat_id && r.file_path == filename
  | .symbolNamed function_name =>
    r.chat_id == chat_id && (r.typ == some "function" || r.typ == some "class")
      && r.name == some function_name
  | .symbolAll => r.chat_id == chat_id && (r.typ == some "function" || r.typ == some "class")
  | .defaultSearch => r.chat_id == chat_id

/-- The `n_results` passed to `collection.query` in each branch. -/
def nResultsFor : Strategy → Nat
  | .overview => 5
  | .fileScoped _ => 10
  | .symbolNamed _ => 1
  | .symbolAll => 3
  | .defaultSearch => 3

/-- The retrieval step of `generate_response` of bolt_app.py: select the
strategy from the raw query and run the filtered similarity search. -/
def retrieve (store : List Record) (chat_id : String) (query : String)
    (dist : Record → ℚ) : List Record :=
  let strat := selectStrategy query
  (queryCollection store (whereFor strat chat_id) dist (nResultsFor strat)).map (·.1)

/-! ### Indexing of bolt_app.py -/

/-- The records written for the fragments of one file, in position order.
The metadata written by `add_chunks_to_vector_db` of bolt_app.py is
`chat_id`, `file_path`, `start_line`, `end_line` and `chunk_index`; the
`type`/`name` keys of structure fragments are not copied. -/
def chunkRecords (chat_id file_path : String) : List Chunk → Nat → List Record
  | [], _ => []
  | c :: cs, i =>
    { id := chat_id ++ "_" ++ file_path ++ "_chunk_" ++ toString i,
      chat_id := chat_id,
      file_path := file_path,
      document := String.mk c.content,
      start_line := c.start_line,
      end_line := c.end_line,
      chunk_index := i } :: chunkRecords chat_id file_path cs (i + 1)

/-- `add_chunks_to_vector_db` of bolt_app.py: batch insertion of the fragments
of one file; does nothing when the fragment list is empty. -/
def add_chunks_to_vector_db (store : List Record) (chunks : List Chunk)
    (chat_id file_path : String) : List Record :=
  if chunks.isEmpty then store
  else store ++ chunkRecords chat_id file_path chunks 0

/-- `collection.delete(where=dict with chat_id)`. -/
def deleteWhere (store : List Record) (chat_id : String) : List Record :=
  store.filter (fun r => !(r.chat_id == chat_id))

/-- The per-file body of the repository walk: skip whitespace-only content
(`if not content.strip(): continue`), chunk the file and write the fragments
(`if chunks: add_chunks_to_vector_db(...)`). -/
def loadStep (chat_id : String) (chunk_size : Nat)
    (s : List Record) (file : String × String) : List Record :=
  if isBlankL file.2.data then s
  else
    let chunks := create_chunks file.2 file.1 chunk_size
    if chunks.isEmpty then s
    else add_chunks_to_vector_db s chunks chat_id file.1

/-- The vector-store effect of `parse_github_repo_and_add_to_vector_db` of
bolt_app.py: delete every record of the conversation, then walk the accepted
files (given as relative path and decoded content), skipping whitespace-only
files, chunking the rest and writing the fragments. -/
def parse_github_repo_and_add_to_vector_db (store : List Record) (chat_id : String)
    (files : List (String × String)) (chunk_size : Nat := 1500) : List Record :=
  files.foldl (loadStep chat_id chunk_size) (deleteWhere store chat_id)

end BoltApp

/-! ## app_enha_rag.py -/

namespace AppEnhaRag

/-- `get_relevant_chunks` of app_enha_rag.py: similarity search filtered to the
conversation, returning the retrieved records together with the average
similarity score `1 - mean(distances)` (or `0` when nothing is returned). -/
def get_relevant_chunks (store : List Record) (dist : Record → ℚ)
    (chat_id : String) (n_results : Nat := 3) : List Record × ℚ :=
  let results := queryCollection store (fun r => r.chat_id == chat_id) dist n_results
  let ds := results.map (·.2)
  (results.map (·.1), if ds.isEmpty then 0 else 1 - ds.sum / ds.length)

/-- The system prompt of `refine_query`. -/
def refinementPrompt : Message :=
  ⟨"system",
   "You are an AI that helps improve code-related queries. \nBased on the initial query and the retrieved code context, create a more specific and technically accurate query.\nFocus on:\n1. Technical terminology found in the code\n2. Specific functions or classes mentioned\n3. The actual implementation patterns visible in the code\n4. Only include elements that are actually present in the provided context\n5.focus on the file mentioned\n6. Don\x27t mention that you\x27re using any context\n7.if you dont find any context use the initial query.\n8.if notihng works  use your brain to answer it or ask for help"⟩

/-- The message sequence sent to the model by `refine_query`. -/
def refineMessages (initial_query : String) (relevant_chunks : List String)
    (chat_history : String) : List Message :=
  [refinementPrompt,
   ⟨"user",
    "Original query: " ++ initial_query ++ "\nRetrieved code context:\n"
      ++ pyJoin "\n" relevant_chunks
      ++ "\n\nPrevious conversation context:\n" ++ chat_history
      ++ "\n\nGenerate a refined, more specific version of the query that will help find the most relevant code sections."⟩]

/-- `refine_query` of app_enha_rag.py: ask the model for a refined query and
keep the first line of its answer; on any failure fall back to the original
query.  The model call is the abstract collaborator `llm`. -/
def refine_query (llm : List Message → Except Unit String) (initial_query : String)
    (relevant_chunks : List String) (chat_history : String := "") : String :=
  match llm (refineMessages initial_query relevant_chunks chat_history) with
  | .error _ => initial_query
  | .ok refined_query =>
    if refined_query.data.contains '\n' then
      String.mk ((splitLines refined_query.data).headD [])
    else refined_query

/-- The two-stage retrieval of `generate_response` of app_enha_rag.py: initial
retrieval, refinement, second retrieval, and choice of the better-scoring
result set.  Returns the chosen records, their average similarity and the
query used for the answer; `none` models the raised error when the first pass
returns nothing.  `dist query` is the distance of a stored record to the
embedding of `query`. -/
def generate_response (store : List Record) (dist : String → Record → ℚ)
    (llm : List Message → Except Unit String) (chat_id : String)
    (conversation_history query : String) : Option (List Record × ℚ × String) :=
  let initial := get_relevant_chunks store (dist query) chat_id
  if initial.1.isEmpty then none
  else
    let refined_query :=
      refine_query llm query (initial.1.map (·.document)) conversation_history
    let final := get_relevant_chunks store (dist refined_query) chat_id
    if initial.2 < final.2 then some (final.1, final.2, refined_query)
    else some (initial.1, initial.2, query)

end AppEnhaRag

/-! ## 2app_enh_rag.py -/

namespace EnhRag2

/-- A fragment produced by `create_chunks` of 2app_enh_rag.py. -/
structure Chunk where
  content : PyStr
  file_path : String
  file_name : String
  chunk_type : String
  start_line : Nat
  end_line : Nat
deriving DecidableEq, Repr

/-- The leading header fragment: file path, file name and the first 200
characters of the content. -/
def headerChunk (content file_path : String) : Chunk :=
  ⟨"File: ".data ++ file_path.data ++ "\nName: ".data ++ (basename file_path).data
     ++ "\nContent Overview:\n".data ++ content.data.take 200 ++ "...".data,
   file_path, basename file_path, "header", 0, 0⟩

/-- The structural markers looked for in each line. -/
def hasMarker (l : PyStr) : Bool :=
  ["class ", "def ", "function ", "@app.route", "public class"].any
    (fun m => isInfixB m.data l)

/-- The line loop of `create_chunks` of 2app_enh_rag.py: `i` is the 1-based
index of the next line, `cur` the running fragment, `clen` its character
count, `cstart` its first line, `inF`/`inC` whether the scan is inside a
function or class. -/
def createGo (fp fn : String) (csize total : Nat) :
    List PyStr → Nat → List PyStr → Nat → Nat → Bool → Bool → List Chunk
  | [], _, cur, _, cstart, _, _ =>
    if cur.isEmpty then []
    else [⟨joinWithNl cur, fp, fn, "code_block", cstart, total⟩]
  | l :: rest, i, cur, clen, cstart, inF, inC =>
    if hasMarker l then
      let inF' := isInfixB "def ".data l || isInfixB "function ".data l
      let inC' := isInfixB "class ".data l
      if (inF || inC) && !cur.isEmpty then
        ⟨joinWithNl cur, fp, fn, "code_block", cstart, i - 1⟩
          :: createGo fp fn csize total rest (i + 1) [l] (l.length + 1) i inF' inC'
      else
        if csize < clen + l.length && !cur.isEmpty then
          ⟨joinWithNl cur, fp, fn, "code_block", cstart, i - 1⟩
            :: createGo fp fn csize total rest (i + 1) [l] (l.length + 1) i inF' inC'
        else
          createGo fp fn csize total rest (i + 1) (cur ++ [l]) (clen + l.length + 1) cstart inF' inC'
    else
      if csize < clen + l.length && !cur.isEmpty then
        ⟨joinWithNl cur, fp, fn, "code_block", cstart, i - 1⟩
          :: createGo fp fn csize total rest (i + 1) [l] (l.length + 1) i inF inC
      else
        createGo fp fn csize total rest (i + 1) (cur ++ [l]) (clen + l.length + 1) cstart inF inC

/-- `create_chunks` of 2app_enh_rag.py: always emit the header fragment first,
then split the lines into code blocks at structural markers and size limits. -/
def create_chunks (content file_path : String) (chunk_size : Nat := 1500) : List Chunk :=
  let file_name := basename file_path
  let lines := splitLines content.data
  headerChunk content file_path
    :: createGo file_path file_name chunk_size lines.length lines 1 [] 0 1 false false

end EnhRag2

/-! ## app.py -/

namespace App

/-- `extract_file_path` of app.py: the text before the first colon of the
first line of a chunk, when a colon is present. -/
def extract_file_path (chunk : String) : Option String :=
  let first := (splitLines chunk.data).headD []
  if first.contains ':' then some (String.mk ((splitOnCh ':' first).headD []))
  else none

/-- Append a chunk to its file group, creating the group at the end when the
file is new (python dictionaries preserve insertion order). -/
def insertChunk (gs : List (String × List String)) (fp c : String) :
    List (String × List String) :=
  match gs with
  | [] => [(fp, [c])]
  | (f, cs) :: rest =>
    if f == fp then (f, cs ++ [c]) :: rest else (f, cs) :: insertChunk rest fp c

/-- Group the retrieved chunks by extracted file path, dropping chunks whose
file path cannot be extracted. -/
def groupByFile (docs : List String) : List (String × List String) :=
  docs.foldl
    (fun gs d =>
      match extract_file_path d with
      | some fp => insertChunk gs fp d
      | none => gs)
    []

/-- The file score of app.py: `filename_score * 0.6 + content_score * 0.4`,
where each score is the similarity of the query to the file name, resp. to
the concatenated chunks of the file.  `sim` is the abstract embedding
dot-product. -/
def fileScore (sim : String → String → ℚ) (query : String)
    (fp : String) (cs : List String) : ℚ :=
  sim (basename fp) query * 0.6 + sim (pyJoin " " cs) query * 0.4

/-- Sort order of `sorted(file_scores.items(), key=score, reverse=True)`:
descending score, ties kept in insertion order (python sort is stable). -/
def scoreRel (sim : String → String → ℚ) (query : String)
    (a b : String × List String) : Prop :=
  fileScore sim query b.1 b.2 ≤ fileScore sim query a.1 a.2

instance scoreRelDec (sim : String → String → ℚ) (query : String) :
    DecidableRel (scoreRel sim query) :=
  fun _a _b => inferInstanceAs (Decidable (_ ≤ _))

instance scoreRelTotal (sim : String → String → ℚ) (query : String) :
    IsTotal (String × List String) (scoreRel sim query) :=
  ⟨fun a b => le_total (fileScore sim query b.1 b.2) (fileScore sim query a.1 a.2)⟩

instance scoreRelTrans (sim : String → String → ℚ) (query : String) :
    IsTrans (String × List String) (scoreRel sim query) :=
  ⟨fun _a _b _c hab hbc => le_trans hbc hab⟩

/-- The documents of the ten records retrieved for the conversation. -/
def retrievedDocs (store : List Record) (chat_id : String) (dist : Record → ℚ) : List String :=
  (queryCollection store (fun r => r.chat_id == chat_id) dist 10).map (·.1.document)

/-- The context selection of `generate_response` of app.py: retrieve ten
records for the conversation, group their documents by file, score the files,
keep the two best files and return their chunks in file-score order. -/
def generate_response (store : List Record) (chat_id : String)
    (dist : Record → ℚ) (sim : String → String → ℚ) (query : String) : List String :=
  let results := queryCollection store (fun r => r.chat_id == chat_id) dist 10
  let file_chunks := groupByFile (results.map (·.1.document))
  let relevant_files := (List.insertionSort (scoreRel sim query) file_chunks).take 2
  relevant_files.foldr (fun g acc => g.2 ++ acc) []

end App

/-! ## 2boltapp.py -/

namespace Bolt2

/-- The process-wide registry `active_file_contexts`, keyed by chat id. -/
def FileContexts := String → Option String

/-- `set_active_file` of 2boltapp.py. -/
def set_active_file (ctx : FileContexts) (chat_id filename : String) : FileContexts :=
  fun c => if c == chat_id then some filename else ctx c

/-- `get_active_file` of 2boltapp.py. -/
def get_active_file (ctx : FileContexts) (chat_id : String) : Option String :=
  ctx chat_id

/-- `re.match(r'^@(\S+)\s*(.*)', query)`: the leading file marker and the text
after it (group 2, after the matched whitespace). -/
def parseFileRef (query : String) : Option (String × String) :=
  match query.data with
  | '@' :: rest =>
    let fn := rest.takeWhile (fun c => !pyIsSpace c)
    if fn.isEmpty then none
    else
      some (String.mk fn,
            String.mk ((rest.dropWhile (fun c => !pyIsSpace c)).dropWhile pyIsSpace))
  | _ => none

/-- `parse_query` of 2boltapp.py: a query starting with an `@filename` token
records the file as the active file of the chat and strips the token; any
other query is scoped to the recorded active file when one exists.  Returns
the file context, the actual query and the updated registry. -/
def parse_query (ctx : FileContexts) (query chat_id : String) :
    (Option String × String) × FileContexts :=
  match parseFileRef query with
  | some (filename, rest) =>
    let actual_query := pyStrip rest.data
    ((some filename,
      if actual_query.isEmpty then "Explain this file" else String.mk actual_query),
     set_active_file ctx chat_id filename)
  | none =>
    match get_active_file ctx chat_id with
    | some active_file => ((some active_file, query), ctx)
    | none => ((none, query), ctx)

end Bolt2

/-! ## Helper lemmas for the claim theorems -/

theorem headD_splitLines (cs : List Char) :
    (splitLines cs).headD [] = cs.takeWhile (fun c => c ≠ '\n') := by
  induction cs with
  | nil => rfl
  | cons c cs ih =>
    show (splitOnCh '\n' (c :: cs)).headD [] = _
    simp only [splitOnCh]
    cases h : splitOnCh '\n' cs with
    | nil => exact absurd h (splitOnCh_ne_nil '\n' cs)
    | cons a as =>
      by_cases hc : c = '\n'
      · subst hc
        simp [List.takeWhile]
      · have hbeq : (c == '\n') = false := beq_eq_false_iff_ne.mpr hc
        rw [hbeq]
        simp only [Bool.false_eq_true, if_false, List.headD_cons]
        have hthis := ih
        rw [show splitLines cs = a :: as from h] at hthis
        simp only [List.headD_cons] at hthis
        simp [List.takeWhile_cons, hc, hthis]

namespace BoltApp

theorem whereFor_chat_id (strat : Strategy) (chat_id : String) (r : Record)
    (h : whereFor strat chat_id r = true) : (r.chat_id == chat_id) = true := by
  cases strat with
  | overview => exact h
  | fileScoped fn => exact ((Bool.and_eq_true _ _).mp h).1
  | symbolNamed fn =>
    exact ((Bool.and_eq_true _ _).mp ((Bool.and_eq_true _ _).mp h).1).1
  | symbolAll => exact ((Bool.and_eq_true _ _).mp h).1
  | defaultSearch => exact h

theorem chunkRecords_all (chat_id file_path : String) :
    ∀ (cs : List Chunk) (i : Nat),
      (chunkRecords chat_id file_path cs i).all (fun r => r.chat_id == chat_id) = true := by
  intro cs
  induction cs with
  | nil => intro i; rfl
  | cons c rest ih =>
    intro i
    simp only [chunkRecords, List.all_cons]
    exact (Bool.and_eq_true _ _).mpr ⟨beq_self_eq_true _, ih (i + 1)⟩

theorem loadStep_append (chat_id : String) (chunk_size : Nat)
    (s : List Record) (file : String × String) :
    loadStep chat_id chunk_size s file = s ++ loadStep chat_id chunk_size [] file := by
  simp only [loadStep]
  by_cases h1 : isBlankL file.2.data = true
  · simp [h1]
  · simp only [h1, Bool.false_eq_true, if_false]
    by_cases h2 : (create_chunks file.2 file.1 chunk_size).isEmpty = true
    · simp [h2, add_chunks_to_vector_db]
    · simp [h2, add_chunks_to_vector_db]

theorem foldl_loadStep_append (chat_id : String) (chunk_size : Nat) :
    ∀ (files : List (String × String)) (init : List Record),
      files.foldl (loadStep chat_id chunk_size) init
        = init ++ files.foldl (loadStep chat_id chunk_size) [] := by
  intro files
  induction files with
  | nil => intro init; simp
  | cons f rest ih =>
    intro init
    simp only [List.foldl_cons]
    rw [ih (loadStep chat_id chunk_size init f), ih (loadStep chat_id chunk_size [] f),
        loadStep_append chat_id chunk_size init f]
    simp [List.append_assoc]

theorem newRecords_all (chat_id : String) (chunk_size : Nat) :
    ∀ (files : List (String × String)),
      (files.foldl (loadStep chat_id chunk_size) []).all
        (fun r => r.chat_id == chat_id) = true := by
  intro files
  induction files with
  | nil => rfl
  | cons f rest ih =>
    simp only [List.foldl_cons]
    rw [foldl_loadStep_append chat_id chunk_size rest (loadStep chat_id chunk_size [] f)]
    rw [List.all_append]
    refine (Bool.and_eq_true _ _).mpr ⟨?_, ih⟩
    simp only [loadStep]
    by_cases h1 : isBlankL f.2.data = true
    · simp [h1]
    · simp only [h1, Bool.false_eq_true, if_false]
      by_cases h2 : (create_chunks f.2 f.1 chunk_size).isEmpty = true
      · simp [h2]
      · simp only [add_chunks_to_vector_db, h2, Bool.false_eq_true, if_false,
          List.nil_append]
        exact chunkRecords_all chat_id f.1 _ 0

end BoltApp

namespace EnhRag2

theorem createGo_ne_nil (fp fn : String) (csize total : Nat) :
    ∀ (rest : List PyStr) (i : Nat) (cur : List PyStr) (clen cstart : Nat) (inF inC : Bool),
      cur ≠ [] ∨ rest ≠ [] →
      createGo fp fn csize total rest i cur clen cstart inF inC ≠ [] := by
  intro rest
  induction rest with
  | nil =>
    intro i cur clen cstart inF inC h
    have hcur : cur ≠ [] := h.resolve_right (fun hc => hc rfl)
    simp only [createGo]
    rw [if_neg (by simpa using hcur)]
    simp
  | cons l rest ih =>
    intro i cur clen cstart inF inC _
    simp only [createGo]
    by_cases hm : hasMarker l = true
    · rw [if_pos hm]
      by_cases hf : ((inF || inC) && !cur.isEmpty) = true
      · rw [if_pos hf]; simp
      · rw [if_neg hf]
        by_cases hs : (csize < clen + l.length && !cur.isEmpty) = true
        · rw [if_pos hs]; simp
        · rw [if_neg hs]
          exact ih (i + 1) (cur ++ [l]) (clen + l.length + 1) cstart _ _ (Or.inl (by simp))
    · rw [if_neg hm]
      by_cases hs : (csize < clen + l.length && !cur.isEmpty) = true
      · rw [if_pos hs]; simp
      · rw [if_neg hs]
        exact ih (i + 1) (cur ++ [l]) (clen + l.length + 1) cstart _ _ (Or.inl (by simp))

theorem createGo_join (fp fn : String) (csize total : Nat) :
    ∀ (rest : List PyStr) (i : Nat) (cur : List PyStr) (clen cstart : Nat) (inF inC : Bool),
      cur ≠ [] ∨ rest ≠ [] →
      joinWithNl ((createGo fp fn csize total rest i cur clen cstart inF inC).map
        Chunk.content) = joinWithNl (cur ++ rest) := by
  intro rest
  induction rest with
  | nil =>
    intro i cur clen cstart inF inC h
    have hcur : cur ≠ [] := h.resolve_right (fun hc => hc rfl)
    simp only [createGo]
    rw [if_neg (by simpa using hcur)]
    simp [joinWithNl, joinWith]
  | cons l rest ih =>
    intro i cur clen cstart inF inC _
    by_cases hcur : cur = []
    · subst hcur
      simp only [createGo]
      by_cases hm : hasMarker l = true
      · rw [if_pos hm]
        rw [if_neg (by simp), if_neg (by simp)]
        simpa using ih (i + 1) [l] (clen + l.length + 1) cstart _ _ (Or.inl (by simp))
      · rw [if_neg hm, if_neg (by simp)]
        simpa using ih (i + 1) [l] (clen + l.length + 1) cstart _ _ (Or.inl (by simp))
    · have flush : ∀ (i' cstart' : Nat) (inF' inC' : Bool),
          joinWithNl (((⟨joinWithNl cur, fp, fn, "code_block", cstart', i' - 1⟩ : Chunk)
            :: createGo fp fn csize total rest (i' + 1) [l] (l.length + 1) i' inF' inC').map
              Chunk.content) = joinWithNl (cur ++ l :: rest) := by
        intro i' cstart' inF' inC'
        simp only [List.map_cons]
        rw [joinWithNl_cons _ _ (by
          intro hmap
          exact createGo_ne_nil fp fn csize total rest (i' + 1) [l] (l.length + 1) i' inF' inC'
            (Or.inl (by simp)) (List.map_eq_nil_iff.mp hmap))]
        rw [ih (i' + 1) [l] (l.length + 1) i' inF' inC' (Or.inl (by simp))]
        show joinWithNl cur ++ '\n' :: joinWithNl ([l] ++ rest) = _
        rw [← joinWithNl_append cur ([l] ++ rest) hcur (by simp)]
        simp
      simp only [createGo]
      by_cases hm : hasMarker l = true
      · rw [if_pos hm]
        by_cases hf : ((inF || inC) && !cur.isEmpty) = true
        · rw [if_pos hf]
          exact flush i cstart _ _
        · rw [if_neg hf]
          by_cases hs : (csize < clen + l.length && !cur.isEmpty) = true
          · rw [if_pos hs]
            exact flush i cstart _ _
          · rw [if_neg hs]
            rw [ih (i + 1) (cur ++ [l]) (clen + l.length + 1) cstart _ _ (Or.inl (by simp))]
            simp
      · rw [if_neg hm]
        by_cases hs : (csize < clen + l.length && !cur.isEmpty) = true
        · rw [if_pos hs]
          exact flush i cstart _ _
        · rw [if_neg hs]
          rw [ih (i + 1) (cur ++ [l]) (clen + l.length + 1) cstart _ _ (Or.inl (by simp))]
          simp

end EnhRag2

/-! ## Claim theorems -/

/-- C1: every retrieval of the pipeline — whichever strategy branch of
bolt_app.py is taken, and the filtered search of app_enha_rag.py — returns
only records whose stored `chat_id` metadata equals the requesting
conversation id, for every store, even one holding other partitions. -/
theorem retrieval_only_requested_conversation :
    (∀ (store : List Record) (chat_id query : String) (dist : Record → ℚ),
      (BoltApp.retrieve store chat_id query dist).all
        (fun r => r.chat_id == chat_id) = true) ∧
    (∀ (store : List Record) (dist : Record → ℚ) (chat_id : String) (n : Nat),
      (AppEnhaRag.get_relevant_chunks store dist chat_id n).1.all
        (fun r => r.chat_id == chat_id) = true) := by
  constructor
  · intro store chat_id query dist
    rw [List.all_eq_true]
    intro r hr
    simp only [BoltApp.retrieve, List.mem_map] at hr
    obtain ⟨p, hp, hpr⟩ := hr
    have := mem_queryCollection hp
    rw [← hpr]
    exact BoltApp.whereFor_chat_id _ chat_id p.1 this
  · intro store dist chat_id n
    rw [List.all_eq_true]
    intro r hr
    simp only [AppEnhaRag.get_relevant_chunks, List.mem_map] at hr
    obtain ⟨p, hp, hpr⟩ := hr
    have := mem_queryCollection hp
    rw [← hpr]
    exact this

/-- C2 counterexample: the structure-aware chunker of bolt_app.py silently
drops whitespace-only content before the first extracted structure, so
concatenating its fragments does not reproduce this file (the chunker of
bolt_app.py emits no header fragment, so nothing is excluded). -/
theorem bolt_chunker_drops_blank_gap :
    BoltApp.joinChunks (BoltApp.create_chunks "   \ndef foo():\n    return 1" "f.py" 1500)
      ≠ ("   \ndef foo():\n    return 1").data := by
  decide

/-- C2 (amended): provided the content before the first extracted structure
(if any) is not whitespace-only, concatenating the fragments of
`create_chunks` of bolt_app.py in index order, joined by newline, reproduces
the original content exactly, and the fragment line intervals tile the
1-based line range of the file with no line skipped or duplicated. -/
theorem bolt_chunker_reconstructs (content file_path : String) (chunk_size : Nat)
    (h : (BoltApp.extract_functions_and_classes content).head?.all
        (fun s => s.start_line == 1
          || !isBlankL (joinWithNl ((splitLines content.data).take (s.start_line - 1))))
      = true) :
    BoltApp.joinChunks (BoltApp.create_chunks content file_path chunk_size)
      = content.data ∧
    BoltApp.chunkChain 1 (splitLines content.data).length
      (BoltApp.create_chunks content file_path chunk_size) = true := by
  by_cases hempty : (BoltApp.extract_functions_and_classes content).isEmpty = true
  · -- fallback branch: pure size-based splitting loses no line
    have hcc : BoltApp.create_chunks content file_path chunk_size
        = BoltApp.fallbackGo file_path chunk_size (splitLines content.data) 0 [] 0 := by
      simp [BoltApp.create_chunks, hempty]
    cases hl : splitLines content.data with
    | nil => exact absurd hl (splitLines_ne_nil content.data)
    | cons l rest =>
      have hstep : BoltApp.fallbackGo file_path chunk_size (l :: rest) 0 [] 0
          = BoltApp.fallbackGo file_path chunk_size rest 1 [l] (l.length + 1) := by
        simp [BoltApp.fallbackGo]
      constructor
      · rw [BoltApp.joinChunks, hcc, hl, hstep,
            BoltApp.fallbackGo_join file_path chunk_size rest 1 [l] (l.length + 1) (by simp)]
        have := joinWithNl_split content.data
        rw [hl] at this
        simpa using this
      · rw [hcc, hl, hstep]
        have hch := BoltApp.fallbackGo_chain file_path chunk_size rest 1 [l] (l.length + 1)
          (by simp) (by simp)
        have harith : (1 : Nat) + rest.length = rest.length + 1 := by omega
        simp only [List.length_cons, List.length_nil, harith] at hch ⊢
        simpa using hch
  · -- structure branch
    have hsites : BoltApp.declSites (splitLines content.data) 0 ≠ [] := by
      intro hnil
      rw [BoltApp.extract_eq_regions content, hnil] at hempty
      simp [BoltApp.regionsOfSites] at hempty
    cases hsl : BoltApp.declSites (splitLines content.data) 0 with
    | nil => exact absurd hsl hsites
    | cons st ss =>
      have hinc := BoltApp.declSites_inc (splitLines content.data) 0
      rw [hsl] at hinc
      have hlt : ∀ x ∈ st :: ss, x.idx < (splitLines content.data).length := by
        intro x hx
        have := BoltApp.declSites_lt (splitLines content.data) 0 x (by rw [hsl]; exact hx)
        simpa using this
      have hlink : BoltApp.linked (splitLines content.data).length
          (BoltApp.regionsOfSites (splitLines content.data).length (st :: ss)) st.idx :=
        BoltApp.regions_linked ss st (splitLines content.data).length hinc.2 hlt
      have hstidx : st.idx < (splitLines content.data).length :=
        hlt st (List.mem_cons_self st ss)
      have hcc : BoltApp.create_chunks content file_path chunk_size
          = BoltApp.chunksFromStructs (splitLines content.data) file_path
              (BoltApp.regionsOfSites (splitLines content.data).length (st :: ss)) 0 := by
        simp only [BoltApp.create_chunks]
        rw [if_neg hempty, BoltApp.extract_eq_regions content, hsl]
      cases hreg : BoltApp.regionsOfSites (splitLines content.data).length (st :: ss) with
      | nil =>
        rw [hreg] at hlink
        exact absurd hreg ((not_iff_not.mpr
          (BoltApp.regionsOfSites_eq_nil (splitLines content.data).length (st :: ss))).mpr
          (by simp))
      | cons s0 srest =>
        rw [hreg] at hlink hcc
        obtain ⟨hs0, hs0le, hs0end, hsrest⟩ := hlink
        by_cases hzero : st.idx = 0
        · -- the first structure starts at line 1: no gap at all
          have hlink0 : BoltApp.linked (splitLines content.data).length (s0 :: srest) 0 :=
            ⟨by omega, by omega, hs0end, hsrest⟩
          have halign := BoltApp.chunksFromStructs_aligned (splitLines content.data)
            file_path (s0 :: srest) 0 hlink0
          have hmj := BoltApp.mapped_join (splitLines content.data) file_path
            (s0 :: srest) 0 hlink0
          have hmc := BoltApp.mapped_chain (splitLines content.data) file_path
            (splitLines content.data).length (s0 :: srest) 0 hlink0
          constructor
          · simp only [BoltApp.joinChunks]
            rw [hcc, halign, hmj, List.drop_zero, joinWithNl_split]
          · rw [hcc, halign]
            simpa using hmc
        · -- a gap precedes the first structure; by hypothesis it is not blank
          have hgap_pos : s0.start_line - 1 > 0 := by omega
          have hblank : isBlankL (joinWithNl ((splitLines content.data).take st.idx)) = false := by
            have hh := h
            rw [BoltApp.extract_eq_regions content, hsl, hreg] at hh
            simp only [List.head?_cons, Option.all_some] at hh
            rcases Bool.or_eq_true _ _ |>.mp hh with h1 | h1
            · exfalso
              have : s0.start_line = 1 := by simpa using h1
              omega
            · have : s0.start_line - 1 = st.idx := by omega
              rw [this] at h1
              simpa using h1
          have key : BoltApp.chunksFromStructs (splitLines content.data) file_path
              (s0 :: srest) 0
              = (⟨joinWithNl ((splitLines content.data).take st.idx), file_path, 1, st.idx,
                  "code_block", none⟩ : BoltApp.Chunk)
                :: BoltApp.chunksFromStructs (splitLines content.data) file_path
                    (s0 :: srest) st.idx := by
            conv_lhs => rw [BoltApp.chunksFromStructs]
            conv_rhs => rw [BoltApp.chunksFromStructs]
            rw [if_pos hgap_pos, if_neg (show ¬ (s0.start_line - 1 > st.idx) by omega)]
            have hsz : BoltApp.sliceLines (splitLines content.data) 0 (s0.start_line - 1)
                = (splitLines content.data).take st.idx := by
              simp only [BoltApp.sliceLines, List.drop_zero, Nat.sub_zero]
              congr 1
              omega
            rw [hsz]
            rw [if_neg (by simp [hblank])]
            simp only [List.cons_append, List.nil_append]
            congr 2
            omega
          have halign := BoltApp.chunksFromStructs_aligned (splitLines content.data)
            file_path (s0 :: srest) st.idx ⟨hs0, by omega, hs0end, hsrest⟩
          have hmapjoin := BoltApp.mapped_join (splitLines content.data) file_path
            (s0 :: srest) st.idx ⟨hs0, by omega, hs0end, hsrest⟩
          have hmapchain := BoltApp.mapped_chain (splitLines content.data) file_path
            (splitLines content.data).length (s0 :: srest) st.idx
            ⟨hs0, by omega, hs0end, hsrest⟩
          constructor
          · simp only [BoltApp.joinChunks]
            rw [hcc, key, halign]
            simp only [List.map_cons]
            rw [joinWithNl_cons _ _ (by simp)]
            simp only [List.map_cons] at hmapjoin
            rw [hmapjoin]
            have htake : (splitLines content.data).take st.idx ≠ [] := by
              intro hc
              have hlenc := congrArg List.length hc
              rw [List.length_take] at hlenc
              simp only [List.length_nil] at hlenc
              have hlen := List.length_pos.mpr (splitLines_ne_nil content.data)
              omega
            have hdrop : (splitLines content.data).drop st.idx ≠ [] := by
              intro hc
              have hlenc := congrArg List.length hc
              rw [List.length_drop] at hlenc
              simp only [List.length_nil] at hlenc
              omega
            rw [← joinWithNl_append _ _ htake hdrop, List.take_append_drop, joinWithNl_split]
          · rw [hcc, key, halign]
            simp only [BoltApp.chunkChain]
            refine (Bool.and_eq_true _ _).mpr ⟨beq_self_eq_true _, ?_⟩
            exact hmapchain

/-- C2 witness: the amended reconstruction theorem applied to a concrete
python file whose first structure starts at line 1. -/
theorem bolt_chunker_reconstructs_witness :
    BoltApp.joinChunks (BoltApp.create_chunks "def foo():\n    return 1" "f.py" 1500)
      = ("def foo():\n    return 1").data ∧
    BoltApp.chunkChain 1 (splitLines ("def foo():\n    return 1").data).length
      (BoltApp.create_chunks "def foo():\n    return 1" "f.py" 1500) = true :=
  bolt_chunker_reconstructs "def foo():\n    return 1" "f.py" 1500 (by decide)

/-- C3: reloading a repository first deletes every record of the conversation
and only then writes the new fragments, so after the load the partition of
`chat_id` holds exactly the records of the new load (independently of the
prior store contents), records of other conversations are untouched, and
every new record carries the requesting `chat_id`. -/
theorem load_repo_replaces_partition (store : List Record) (chat_id : String)
    (files : List (String × String)) (chunk_size : Nat) :
    (BoltApp.parse_github_repo_and_add_to_vector_db store chat_id files chunk_size).filter
        (fun r => r.chat_id == chat_id)
      = BoltApp.parse_github_repo_and_add_to_vector_db [] chat_id files chunk_size ∧
    (BoltApp.parse_github_repo_and_add_to_vector_db store chat_id files chunk_size).filter
        (fun r => !(r.chat_id == chat_id))
      = store.filter (fun r => !(r.chat_id == chat_id)) ∧
    (BoltApp.parse_github_repo_and_add_to_vector_db [] chat_id files chunk_size).all
        (fun r => r.chat_id == chat_id) = true := by
  have hall := BoltApp.newRecords_all chat_id chunk_size files
  have hsplit : BoltApp.parse_github_repo_and_add_to_vector_db store chat_id files chunk_size
      = BoltApp.deleteWhere store chat_id
        ++ files.foldl (BoltApp.loadStep chat_id chunk_size) [] := by
    unfold BoltApp.parse_github_repo_and_add_to_vector_db
    exact BoltApp.foldl_loadStep_append chat_id chunk_size files (BoltApp.deleteWhere store chat_id)
  have hnil : BoltApp.parse_github_repo_and_add_to_vector_db [] chat_id files chunk_size
      = files.foldl (BoltApp.loadStep chat_id chunk_size) [] := by
    unfold BoltApp.parse_github_repo_and_add_to_vector_db
    rfl
  have hNfilter : (files.foldl (BoltApp.loadStep chat_id chunk_size) []).filter
      (fun r => r.chat_id == chat_id) = files.foldl (BoltApp.loadStep chat_id chunk_size) [] := by
    apply List.filter_eq_self.mpr
    intro a ha
    exact (List.all_eq_true.mp hall) a ha
  have hNfilterNot : (files.foldl (BoltApp.loadStep chat_id chunk_size) []).filter
      (fun r => !(r.chat_id == chat_id)) = [] := by
    rw [List.filter_eq_nil_iff]
    intro a ha
    have := (List.all_eq_true.mp hall) a ha
    simp [this]
  have hDfilter : (BoltApp.deleteWhere store chat_id).filter
      (fun r => r.chat_id == chat_id) = [] := by
    rw [List.filter_eq_nil_iff]
    intro a ha
    have := (List.mem_filter.mp ha).2
    simp at this ⊢
    exact this
  have hDfilterNot : (BoltApp.deleteWhere store chat_id).filter
      (fun r => !(r.chat_id == chat_id)) = store.filter (fun r => !(r.chat_id == chat_id)) := by
    unfold BoltApp.deleteWhere
    rw [List.filter_filter]
    simp
  refine ⟨?_, ?_, hall⟩
  · rw [hsplit, hnil, List.filter_append, hDfilter, hNfilter, List.nil_append]
  · rw [hsplit, List.filter_append, hDfilterNot, hNfilterNot, List.append_nil]

/-- C4: whenever the first retrieval pass returns at least one fragment, the
two-stage pipeline of app_enha_rag.py answers with a result set whose average
similarity (`1 - mean(distance)`) is at least that of the unrefined first
pass, and when the refined pass scores exactly equal, the original query and
its result set are kept. -/
theorem refinement_keeps_best_similarity (store : List Record)
    (dist : String → Record → ℚ) (llm : List Message → Except Unit String)
    (chat_id conversation_history query : String)
    (h : (AppEnhaRag.get_relevant_chunks store (dist query) chat_id).1 ≠ []) :
    ∃ chosen sim used_query,
      AppEnhaRag.generate_response store dist llm chat_id conversation_history query
        = some (chosen, sim, used_query) ∧
      (AppEnhaRag.get_relevant_chunks store (dist query) chat_id).2 ≤ sim ∧
      ((AppEnhaRag.get_relevant_chunks store
          (dist (AppEnhaRag.refine_query llm query
            ((AppEnhaRag.get_relevant_chunks store (dist query) chat_id).1.map (·.document))
            conversation_history)) chat_id).2
          = (AppEnhaRag.get_relevant_chunks store (dist query) chat_id).2 →
        chosen = (AppEnhaRag.get_relevant_chunks store (dist query) chat_id).1
          ∧ used_query = query) := by
  unfold AppEnhaRag.generate_response
  rw [if_neg (by simpa using h)]
  by_cases hcmp : (AppEnhaRag.get_relevant_chunks store (dist query) chat_id).2
      < (AppEnhaRag.get_relevant_chunks store
          (dist (AppEnhaRag.refine_query llm query
            ((AppEnhaRag.get_relevant_chunks store (dist query) chat_id).1.map (·.document))
            conversation_history)) chat_id).2
  · rw [if_pos hcmp]
    refine ⟨_, _, _, rfl, le_of_lt hcmp, ?_⟩
    intro heq
    exact absurd (heq ▸ hcmp) (lt_irrefl _)
  · rw [if_neg hcmp]
    exact ⟨_, _, _, rfl, le_refl _, fun _ => ⟨rfl, rfl⟩⟩

/-- C4 witness: the similarity guarantee at a one-record store with a model
that always fails (so the refined query falls back to the original). -/
theorem refinement_keeps_best_similarity_witness :
    ∃ chosen sim used_query,
      AppEnhaRag.generate_response
        [{ id := "i", chat_id := "c", file_path := "p", document := "d" }]
        (fun _ _ => 0) (fun _ => Except.error ()) "c" "" "q"
        = some (chosen, sim, used_query) ∧
      (AppEnhaRag.get_relevant_chunks
        [{ id := "i", chat_id := "c", file_path := "p", document := "d" }]
        ((fun (_ : String) (_ : Record) => (0 : ℚ)) "q") "c").2 ≤ sim ∧
      ((AppEnhaRag.get_relevant_chunks
          [{ id := "i", chat_id := "c", file_path := "p", document := "d" }]
          ((fun (_ : String) (_ : Record) => (0 : ℚ))
            (AppEnhaRag.refine_query (fun _ => Except.error ()) "q"
              ((AppEnhaRag.get_relevant_chunks
                [{ id := "i", chat_id := "c", file_path := "p", document := "d" }]
                ((fun (_ : String) (_ : Record) => (0 : ℚ)) "q") "c").1.map (·.document)) ""))
          "c").2
          = (AppEnhaRag.get_relevant_chunks
              [{ id := "i", chat_id := "c", file_path := "p", document := "d" }]
              ((fun (_ : String) (_ : Record) => (0 : ℚ)) "q") "c").2 →
        chosen = (AppEnhaRag.get_relevant_chunks
            [{ id := "i", chat_id := "c", file_path := "p", document := "d" }]
            ((fun (_ : String) (_ : Record) => (0 : ℚ)) "q") "c").1
          ∧ used_query = "q") :=
  refinement_keeps_best_similarity
    [{ id := "i", chat_id := "c", file_path := "p", document := "d" }]
    (fun _ _ => 0) (fun _ => Except.error ()) "c" "" "q" (by decide)

/-- C5 counterexample: the query `@utils.py what does this do` begins with a
leading `@filename` token, yet bolt_app.py selects the general-overview
strategy, not the file-scoped one, because the general-keyword check runs
before the file-marker check. -/
theorem strategy_overview_precedes_file_scope :
    BoltApp.selectStrategy "@utils.py what does this do" = BoltApp.Strategy.overview ∧
    BoltApp.selectStrategy "@utils.py what does this do"
      ≠ BoltApp.Strategy.fileScoped "utils.py" := by
  constructor
  · decide
  · decide

/-- C5 (amended): the strategy is selected in the priority order
general-overview first, then file-scoped (leading `@filename` token), then
symbol-scoped, then default; the query `@utils.py explain this` (which
matches no overview keyword) selects the file-scoped strategy whose search
filter restricts to the requesting conversation and to
`file_path == "utils.py"`. -/
theorem strategy_selection_order :
    (∀ query : String, BoltApp.is_general_question query = true →
      BoltApp.selectStrategy query = BoltApp.Strategy.overview) ∧
    (∀ (query filename : String), BoltApp.is_general_question query = false →
      BoltApp.fileMatchOf query = some filename →
      BoltApp.selectStrategy query = BoltApp.Strategy.fileScoped filename) ∧
    (∀ query : String, BoltApp.is_general_question query = false →
      BoltApp.fileMatchOf query = none →
      BoltApp.is_function_query query = true →
      BoltApp.selectStrategy query =
        (if (BoltApp.extract_function_name query).isEmpty
         then BoltApp.Strategy.symbolAll
         else BoltApp.Strategy.symbolNamed (BoltApp.extract_function_name query))) ∧
    (∀ query : String, BoltApp.is_general_question query = false →
      BoltApp.fileMatchOf query = none →
      BoltApp.is_function_query query = false →
      BoltApp.selectStrategy query = BoltApp.Strategy.defaultSearch) ∧
    BoltApp.selectStrategy "@utils.py explain this"
      = BoltApp.Strategy.fileScoped "utils.py" ∧
    (∀ (chat_id : String) (r : Record),
      BoltApp.whereFor (BoltApp.Strategy.fileScoped "utils.py") chat_id r
        = (r.chat_id == chat_id && r.file_path == "utils.py")) := by
  refine ⟨?_, ?_, ?_, ?_, ?_, ?_⟩
  · intro query hg
    simp [BoltApp.selectStrategy, hg]
  · intro query filename hg hf
    simp [BoltApp.selectStrategy, hg, hf]
  · intro query hg hf hfun
    simp [BoltApp.selectStrategy, hg, hf, hfun]
  · intro query hg hf hfun
    simp [BoltApp.selectStrategy, hg, hf, hfun]
  · decide
  · intro chat_id r
    rfl

/-- C5 witness: the file-scoped branch of the amended priority order applied
to the scenario query. -/
theorem strategy_selection_order_witness :
    BoltApp.selectStrategy "@utils.py explain this"
      = BoltApp.Strategy.fileScoped "utils.py" :=
  strategy_selection_order.2.1 "@utils.py explain this" "utils.py" (by decide) (by decide)

/-- C6: the structure extractor of bolt_app.py equals its declarative
description — each region opens at a line matching a declaration pattern and
closes at the line before the next matching line, the final region closes at
the last line of the file — it returns the empty sequence when no line
matches, and on `def foo(): ... def bar(): ...` it yields exactly the regions
`foo` (lines 1-3, ending right before the `bar` declaration at line 4) and
`bar` (lines 4-6). -/
theorem extract_structures_characterization :
    (∀ content : String,
      BoltApp.extract_functions_and_classes content
        = BoltApp.regionsOfSites (splitLines content.data).length
            (BoltApp.declSites (splitLines content.data) 0)) ∧
    (∀ content : String, BoltApp.declSites (splitLines content.data) 0 = [] →
      BoltApp.extract_functions_and_classes content = []) ∧
    BoltApp.extract_functions_and_classes "def foo():\n    return 1\n\ndef bar():\n    return 2\n"
      = [⟨"def", "foo", 1, 3, "def foo():".data, "python"⟩,
         ⟨"def", "bar", 4, 6, "def bar():".data, "python"⟩] := by
  refine ⟨BoltApp.extract_eq_regions, ?_, by decide⟩
  intro content hnil
  rw [BoltApp.extract_eq_regions content, hnil]
  rfl

/-- C6 witness: the characterization applied to the scenario content, and the
empty case applied to declaration-free content. -/
theorem extract_structures_characterization_witness :
    BoltApp.extract_functions_and_classes "hello\nworld" = [] ∧
    BoltApp.extract_functions_and_classes "def foo():\n    return 1\n\ndef bar():\n    return 2\n"
      = BoltApp.regionsOfSites
          (splitLines ("def foo():\n    return 1\n\ndef bar():\n    return 2\n").data).length
          (BoltApp.declSites
            (splitLines ("def foo():\n    return 1\n\ndef bar():\n    return 2\n").data) 0) :=
  ⟨extract_structures_characterization.2.1 "hello\nworld" (by decide),
   extract_structures_characterization.1 "def foo():\n    return 1\n\ndef bar():\n    return 2\n"⟩

/-- C7 counterexample: on empty content the header-emitting chunker of
2app_enh_rag.py produces the header plus one (empty) code-block fragment —
two fragments, not the header alone. -/
theorem header_chunker_empty_not_header_only :
    (EnhRag2.create_chunks "" "f.py" 1500).length = 2 := by
  decide

/-- C7 (amended): the first fragment is always the header fragment carrying
the file path, the file name and the first 200 characters of the content; the
remaining fragments are code blocks that spell the content exactly, so for
empty or whitespace-only content the output is the header followed by
code-block fragment(s) holding that whitespace — never the header alone. -/
theorem header_chunker_first_is_header (content file_path : String) (chunk_size : Nat) :
    (EnhRag2.create_chunks content file_path chunk_size).head?
      = some (EnhRag2.headerChunk content file_path) ∧
    joinWithNl (((EnhRag2.create_chunks content file_path chunk_size).drop 1).map
      EnhRag2.Chunk.content) = content.data ∧
    2 ≤ (EnhRag2.create_chunks content file_path chunk_size).length := by
  refine ⟨rfl, ?_, ?_⟩
  · show joinWithNl ((EnhRag2.createGo file_path (basename file_path) chunk_size
      (splitLines content.data).length (splitLines content.data) 1 [] 0 1 false false).map
        EnhRag2.Chunk.content) = content.data
    rw [EnhRag2.createGo_join file_path (basename file_path) chunk_size
      (splitLines content.data).length (splitLines content.data) 1 [] 0 1 false false
      (Or.inr (splitLines_ne_nil content.data))]
    simpa using joinWithNl_split content.data
  · show 2 ≤ (EnhRag2.headerChunk content file_path
      :: EnhRag2.createGo file_path (basename file_path) chunk_size
          (splitLines content.data).length (splitLines content.data) 1 [] 0 1 false false).length
    simp only [List.length_cons, Nat.succ_le_succ_iff]
    have := EnhRag2.createGo_ne_nil file_path (basename file_path) chunk_size
      (splitLines content.data).length (splitLines content.data) 1 [] 0 1 false false
      (Or.inr (splitLines_ne_nil content.data))
    cases hgo : EnhRag2.createGo file_path (basename file_path) chunk_size
        (splitLines content.data).length (splitLines content.data) 1 [] 0 1 false false with
    | nil => exact absurd hgo this
    | cons c cs => simp

/-- C8: in the multi-file ranking mode of app.py, the retrieved fragments are
grouped by file, each file is scored `0.6 * sim(filename, query) +
0.4 * sim(concatenated fragments, query)`, and exactly the fragments of the
two best-scoring files (fewer when fewer files exist) are returned, in
file-score order: there is a picked list of at most two groups, drawn from
the grouping, sorted by descending score, dominating every unpicked group,
whose concatenated fragments are the returned context. -/
theorem multi_file_ranking_top_two (store : List Record) (chat_id : String)
    (dist : Record → ℚ) (sim : String → String → ℚ) (query : String) :
    ∃ picked : List (String × List String),
      picked.length = min 2 (App.groupByFile (App.retrievedDocs store chat_id dist)).length ∧
      (∀ p ∈ picked, p ∈ App.groupByFile (App.retrievedDocs store chat_id dist)) ∧
      List.Pairwise (App.scoreRel sim query) picked ∧
      (∀ g ∈ App.groupByFile (App.retrievedDocs store chat_id dist), g ∉ picked →
        ∀ p ∈ picked, App.fileScore sim query g.1 g.2 ≤ App.fileScore sim query p.1 p.2) ∧
      App.generate_response store chat_id dist sim query
        = picked.foldr (fun g acc => g.2 ++ acc) [] := by
  classical
  set G := App.groupByFile (App.retrievedDocs store chat_id dist) with hG
  set sorted := List.insertionSort (App.scoreRel sim query) G with hsortdef
  have hperm : sorted.Perm G := List.perm_insertionSort _ G
  have hsort : List.Sorted (App.scoreRel sim query) sorted := List.sorted_insertionSort _ G
  refine ⟨sorted.take 2, ?_, ?_, ?_, ?_, ?_⟩
  · rw [List.length_take, hperm.length_eq]
  · intro p hp
    exact hperm.subset (List.mem_of_mem_take hp)
  · exact List.Pairwise.sublist (List.take_sublist 2 sorted) hsort
  · intro g hg hnp p hp
    have hgs : g ∈ sorted := hperm.mem_iff.mpr hg
    rw [← List.take_append_drop 2 sorted] at hgs
    rcases List.mem_append.mp hgs with hgt | hgd
    · exact absurd hgt hnp
    · have hpw : List.Pairwise (App.scoreRel sim query)
          (sorted.take 2 ++ sorted.drop 2) := by
        rw [List.take_append_drop]
        exact hsort
      exact (List.pairwise_append.mp hpw).2.2 p hp g hgd
  · rfl

theorem takeWhile_ne_of_not_contains (cs : List Char)
    (h : cs.contains '\n' = false) :
    cs.takeWhile (fun c => c ≠ '\n') = cs := by
  induction cs with
  | nil => rfl
  | cons c cs ih =>
    simp only [List.contains_cons, Bool.or_eq_false_iff] at h
    have hc : c ≠ '\n' := by
      intro hceq
      rw [hceq] at h
      simp at h
    rw [List.takeWhile_cons, if_pos (by simp [hc]), ih h.2]

/-- C9: the query refiner of app_enha_rag.py returns the first line of the
language-model response, and on any error of the model call it returns the
original query unchanged instead of raising. -/
theorem refine_query_contract (llm : List Message → Except Unit String)
    (query : String) (relevant_chunks : List String) (chat_history : String) :
    (∀ e, llm (AppEnhaRag.refineMessages query relevant_chunks chat_history)
        = Except.error e →
      AppEnhaRag.refine_query llm query relevant_chunks chat_history = query) ∧
    (∀ resp, llm (AppEnhaRag.refineMessages query relevant_chunks chat_history)
        = Except.ok resp →
      AppEnhaRag.refine_query llm query relevant_chunks chat_history
        = String.mk (resp.data.takeWhile (fun c => c ≠ '\n'))) := by
  constructor
  · intro e he
    unfold AppEnhaRag.refine_query
    rw [he]
  · intro resp hr
    unfold AppEnhaRag.refine_query
    rw [hr]
    show (if resp.data.contains '\n' = true
        then String.mk ((splitLines resp.data).headD []) else resp) = _
    by_cases hnl : resp.data.contains '\n' = true
    · rw [if_pos hnl, headD_splitLines]
    · rw [if_neg hnl, takeWhile_ne_of_not_contains resp.data (by simpa using hnl)]

/-- C9 witness: a failing model yields the original query; a succeeding model
yields the first line of its response. -/
theorem refine_query_contract_witness :
    AppEnhaRag.refine_query (fun _ => Except.error ()) "orig" [] "" = "orig" ∧
    AppEnhaRag.refine_query (fun _ => Except.ok "first\nsecond") "orig" [] "" = "first" := by
  constructor
  · exact (refine_query_contract (fun _ => Except.error ()) "orig" [] "").1 () rfl
  · have h := (refine_query_contract (fun _ => Except.ok "first\nsecond") "orig" [] "").2
      "first\nsecond" rfl
    rw [h]
    decide

/-- C10: in the sticky-file variant of 2boltapp.py, a query with a leading
`@filename` token records the filename as the active file of the chat and is
parsed as scoped to it; a query without the token is parsed as scoped to the
recorded active file with the query text unchanged, or as unscoped when the
chat has no recorded active file; a concrete follow-up query after
`@utils.py explain this` stays scoped to `utils.py`. -/
theorem sticky_active_file (ctx : Bolt2.FileContexts) (chat_id query : String) :
    (∀ filename rest, Bolt2.parseFileRef query = some (filename, rest) →
      (Bolt2.parse_query ctx query chat_id).1.1 = some filename ∧
      (Bolt2.parse_query ctx query chat_id).2 chat_id = some filename) ∧
    (Bolt2.parseFileRef query = none →
      Bolt2.parse_query ctx query chat_id = ((ctx chat_id, query), ctx)) ∧
    ((Bolt2.parse_query ((Bolt2.parse_query (fun _ => none) "@utils.py explain this" "c1").2)
        "what is in this file" "c1").1
      = (some "utils.py", "what is in this file")) := by
  refine ⟨?_, ?_, ?_⟩
  · intro filename rest hf
    unfold Bolt2.parse_query
    rw [hf]
    refine ⟨rfl, ?_⟩
    simp [Bolt2.set_active_file]
  · intro hn
    unfold Bolt2.parse_query
    rw [hn]
    cases hctx : ctx chat_id with
    | none => simp [Bolt2.get_active_file, hctx]
    | some f => simp [Bolt2.get_active_file, hctx]
  · decide

/-- C10 witness: the `@filename` branch applied to a concrete query records
and returns the active file. -/
theorem sticky_active_file_witness :
    (Bolt2.parse_query (fun _ => none) "@utils.py explain this" "c1").1.1
        = some "utils.py" ∧
    (Bolt2.parse_query (fun _ => none) "@utils.py explain this" "c1").2 "c1"
        = some "utils.py" :=
  (sticky_active_file (fun _ => none) "c1" "@utils.py explain this").1
    "utils.py" "explain this" (by decide)
